import Mathlib

/-!
Verification development for the bloomberg-terminal repository.

The frontend (command parser `lib/modules.ts`, terminal store
`useTerminalStore.ts`, the hooks `useAlertNotifications.ts`, `useIntraday.ts`,
`useMarketOverview.ts`, `useWatchlist.ts`, and the API helpers `lib/api.ts`)
is shallowly embedded below.  JavaScript numbers are modelled as rationals
(`Rat`): `NaN` and the infinities are represented by `Option.none` at the
points where the source checks `Number.isFinite`.  JavaScript strings are
Lean strings; `toUpperCase`, `trim` and the whitespace regexes are modelled
over ASCII.

The backend (provider resilience layer, cache single-flight, alert
evaluator) lives in `apps/backend`, which is not part of the sources at
hand; the two definitions that concern it are modelled from the spec and
marked as such in their doc comments.
-/

/-! ## JavaScript string primitives -/

/-- Character-class test for the JavaScript regex `\s` restricted to the
ASCII range plus NBSP: space, tab, LF, VT, FF, CR, NBSP. -/
def isJsWs (c : Char) : Bool :=
  c.toNat == 32 || c.toNat == 9 || c.toNat == 10 || c.toNat == 13 ||
    c.toNat == 11 || c.toNat == 12 || c.toNat == 160

/-- ASCII model of `String.prototype.toUpperCase` applied to one character:
maps `a`..`z` (97..122) to `A`..`Z`, leaves everything else unchanged. -/
def jsToUpper (c : Char) : Char :=
  if 97 ≤ c.toNat ∧ c.toNat ≤ 122 then Char.ofNat (c.toNat - 32) else c

/-- `trim()` on a character list: drop `\s` characters from both ends. -/
def jsTrimList (cs : List Char) : List Char :=
  ((cs.dropWhile isJsWs).reverse.dropWhile isJsWs).reverse

/-- `trim()` on strings. -/
def jsTrim (s : String) : String := String.mk (jsTrimList s.data)

/-- `toUpperCase()` on strings (ASCII model). -/
def jsUpper (s : String) : String := String.mk (s.data.map jsToUpper)

/-- Worker for `.replace(/\s+/g, ' ')`: the flag records whether the
previous character was whitespace (so a run collapses to one space). -/
def jsCollapseWsGo : Bool → List Char → List Char
  | _, [] => []
  | prevWs, c :: rest =>
    if isJsWs c then
      if prevWs then jsCollapseWsGo true rest
      else ' ' :: jsCollapseWsGo true rest
    else c :: jsCollapseWsGo false rest

/-- `.replace(/\s+/g, ' ')` on strings. -/
def jsCollapseWs (s : String) : String := String.mk (jsCollapseWsGo false s.data)

/-- ASCII model of `toLowerCase` on one character. -/
def jsToLowerChar (c : Char) : Char :=
  if 65 ≤ c.toNat ∧ c.toNat ≤ 90 then Char.ofNat (c.toNat + 32) else c

/-- `toLowerCase()` on strings (ASCII model). -/
def jsLower (s : String) : String := String.mk (s.data.map jsToLowerChar)

/-- `s.endsWith(post)`. -/
def jsEndsWith (s post : String) : Bool := List.isSuffixOf post.data s.data

/-- Drop the final `n` characters of a string. -/
def jsDropRight (s : String) (n : Nat) : String :=
  String.mk (s.data.take (s.data.length - n))

/-! ## Symbol normalization (`lib/modules.ts`, `normalizeSymbolToken`) -/

/-- Characters kept by the regex `[^A-Z0-9=/.\-^]` (i.e. the allowed set):
`A`..`Z` (65..90), `0`..`9` (48..57), `=` (61), `/` (47), `.` (46),
`-` (45), `^` (94). -/
def isAllowedSymbolChar (c : Char) : Bool :=
  (65 ≤ c.toNat && c.toNat ≤ 90) || (48 ≤ c.toNat && c.toNat ≤ 57) ||
    c.toNat == 61 || c.toNat == 47 || c.toNat == 46 || c.toNat == 45 ||
    c.toNat == 94

/-- `normalizeSymbolToken(raw)`:
`raw.trim().toUpperCase().replace(/\s+/g, '').replace(/[^A-Z0-9=/.\-^]/g, '')`. -/
def normalizeSymbolToken (raw : String) : String :=
  String.mk ((((jsTrimList raw.data).map jsToUpper).filter (fun c => !isJsWs c)).filter
    isAllowedSymbolChar)

theorem allowed_not_ws {c : Char} (h : isAllowedSymbolChar c = true) :
    isJsWs c = false := by
  simp only [isAllowedSymbolChar, Bool.or_eq_true, Bool.and_eq_true,
    decide_eq_true_eq, beq_iff_eq] at h
  simp only [isJsWs, Bool.or_eq_false_iff, beq_eq_false_iff_ne, ne_eq]
  omega

theorem allowed_toUpper {c : Char} (h : isAllowedSymbolChar c = true) :
    jsToUpper c = c := by
  simp only [isAllowedSymbolChar, Bool.or_eq_true, Bool.and_eq_true,
    decide_eq_true_eq, beq_iff_eq] at h
  unfold jsToUpper
  rw [if_neg]
  omega

theorem dropWhile_eq_self_of_not {p : Char → Bool} {l : List Char}
    (h : ∀ c ∈ l, p c = false) : l.dropWhile p = l := by
  cases l with
  | nil => rfl
  | cons a t =>
    rw [List.dropWhile_cons, if_neg]
    simp [h a (List.mem_cons_self a t)]

theorem jsTrimList_eq_self {l : List Char}
    (h : ∀ c ∈ l, isJsWs c = false) : jsTrimList l = l := by
  unfold jsTrimList
  rw [dropWhile_eq_self_of_not h, dropWhile_eq_self_of_not, List.reverse_reverse]
  intro c hc
  exact h c (List.mem_reverse.mp hc)

/-- Every character of a normalized symbol is in the allowed set. -/
theorem normalizeSymbolToken_chars (s : String) :
    (normalizeSymbolToken s).data.all isAllowedSymbolChar = true := by
  simp only [normalizeSymbolToken, List.all_eq_true]
  intro c hc
  exact List.of_mem_filter hc

/-- `normalizeSymbolToken` is the identity on strings all of whose
characters are in the allowed set. -/
theorem normalizeSymbolToken_fixed {s : String}
    (h : ∀ c ∈ s.data, isAllowedSymbolChar c = true) :
    normalizeSymbolToken s = s := by
  have hws : ∀ c ∈ s.data, isJsWs c = false := fun c hc => allowed_not_ws (h c hc)
  unfold normalizeSymbolToken
  rw [jsTrimList_eq_self hws]
  have hmap : ∀ l : List Char, (∀ c ∈ l, isAllowedSymbolChar c = true) →
      l.map jsToUpper = l := by
    intro l hl
    induction l with
    | nil => rfl
    | cons a t ih =>
      simp only [List.map_cons, allowed_toUpper (hl a (by simp)), List.cons.injEq,
        true_and]
      exact ih (fun c hc => hl c (by simp [hc]))
  rw [hmap s.data h]
  have h1 : s.data.filter (fun c => !isJsWs c) = s.data :=
    List.filter_eq_self.mpr (fun c hc => by simp [hws c hc])
  rw [h1]
  have h2 : s.data.filter isAllowedSymbolChar = s.data := List.filter_eq_self.mpr h
  rw [h2]

theorem normalizeSymbolToken_idem (s : String) :
    normalizeSymbolToken (normalizeSymbolToken s) = normalizeSymbolToken s := by
  apply normalizeSymbolToken_fixed
  intro c hc
  have := normalizeSymbolToken_chars s
  rw [List.all_eq_true] at this
  exact this c hc

/-! ## JavaScript `Number(string)` model

`Number()` applied to a string parses an optional-sign decimal literal
(with optional fraction and exponent), a `0x`/`0o`/`0b` radix literal, the
empty string (which yields `0`), or `Infinity`.  We model the result as
`Option Rat`: `none` stands for the non-finite outcomes (`NaN`, `±Infinity`),
which is exactly the class rejected by the `Number.isFinite` /
`Number.isInteger` guards at every use site in the sources. -/

def decDigit (c : Char) : Option Nat :=
  if 48 ≤ c.toNat ∧ c.toNat ≤ 57 then some (c.toNat - 48) else none

def hexDigit (c : Char) : Option Nat :=
  if 48 ≤ c.toNat ∧ c.toNat ≤ 57 then some (c.toNat - 48)
  else if 65 ≤ c.toNat ∧ c.toNat ≤ 70 then some (c.toNat - 55)
  else if 97 ≤ c.toNat ∧ c.toNat ≤ 102 then some (c.toNat - 87)
  else none

def octDigit (c : Char) : Option Nat :=
  if 48 ≤ c.toNat ∧ c.toNat ≤ 55 then some (c.toNat - 48) else none

def binDigit (c : Char) : Option Nat :=
  if c.toNat = 48 ∨ c.toNat = 49 then some (c.toNat - 48) else none

/-- Take the longest run of digits (under the given digit reader) from the
front of the character list. -/
def spanDigits (d : Char → Option Nat) : List Char → List Nat × List Char
  | [] => ([], [])
  | c :: rest =>
    match d c with
    | some v =>
      let (ds, r) := spanDigits d rest
      (v :: ds, r)
    | none => ([], c :: rest)

def digitsVal (base : Nat) (ds : List Nat) : Nat :=
  ds.foldl (fun a d => a * base + d) 0

/-- A whole-string radix literal (`0x…`, `0o…`, `0b…` bodies). -/
def radixLit (d : Char → Option Nat) (base : Nat) (cs : List Char) : Option Rat :=
  let (ds, rest) := spanDigits d cs
  if ds.isEmpty ∨ !rest.isEmpty then none else some (digitsVal base ds)

/-- Exponent tail after `e`/`E`: optional sign, then mandatory digits. -/
def expTail (cs : List Char) : Option Int :=
  let (sign, body) :=
    match cs with
    | '+' :: rest => ((1 : Int), rest)
    | '-' :: rest => ((-1 : Int), rest)
    | rest => ((1 : Int), rest)
  let (ds, r) := spanDigits decDigit body
  if ds.isEmpty ∨ !r.isEmpty then none else some (sign * (digitsVal 10 ds : Int))

def pow10 (e : Int) : Rat :=
  if 0 ≤ e then ((10 : Rat) ^ e.toNat) else 1 / (10 : Rat) ^ (-e).toNat

/-- Unsigned decimal mantissa: `digits`, `digits.digits`, or `.digits`. -/
def decMantissa (cs : List Char) : Option (Rat × List Char) :=
  let (ip, r1) := spanDigits decDigit cs
  match r1 with
  | '.' :: r2 =>
    let (fp, r3) := spanDigits decDigit r2
    if ip.isEmpty ∧ fp.isEmpty then none
    else some ((digitsVal 10 ip : Rat) + (digitsVal 10 fp : Rat) / (10 : Rat) ^ fp.length, r3)
  | _ => if ip.isEmpty then none else some ((digitsVal 10 ip : Rat), r1)

/-- Unsigned decimal literal with optional exponent; `Infinity` is
non-finite, hence `none` here. -/
def decLit (cs : List Char) : Option Rat :=
  if cs = "Infinity".data then none
  else
    match decMantissa cs with
    | none => none
    | some (m, rest) =>
      match rest with
      | [] => some m
      | e :: r2 =>
        if e = 'e' ∨ e = 'E' then
          match expTail r2 with
          | some ex => some (m * pow10 ex)
          | none => none
        else none

def signedDecLit : List Char → Option Rat
  | '+' :: rest => decLit rest
  | '-' :: rest => (decLit rest).map Neg.neg
  | cs => decLit cs

/-- Model of JavaScript `Number(string)` (finite results only, see above). -/
def jsNumber (s : String) : Option Rat :=
  match jsTrimList s.data with
  | [] => some 0
  | '0' :: x :: rest =>
    if x = 'x' ∨ x = 'X' then radixLit hexDigit 16 rest
    else if x = 'o' ∨ x = 'O' then radixLit octDigit 8 rest
    else if x = 'b' ∨ x = 'B' then radixLit binDigit 2 rest
    else signedDecLit ('0' :: x :: rest)
  | cs => signedDecLit cs

/-- JavaScript `Math.round`, i.e. `⌊q + 1/2⌋` (round half toward positive
infinity), computed on numerator and denominator so that the kernel can
evaluate it (see `jsRound_eq_floor`). -/
def jsRound (q : Rat) : Rat :=
  ((Int.fdiv (2 * q.num + (q.den : Int)) (2 * (q.den : Int)) : Int) : Rat)

/-- Rational multiplication computed through `mkRat`, definitionally
transparent to the kernel (see `ratMul_eq_mul`). -/
def ratMul (a b : Rat) : Rat := mkRat (a.num * b.num) (a.den * b.den)

/-- JavaScript `Math.max` on two finite numbers. -/
def jsMax (a b : Rat) : Rat := if a ≤ b then b else a

theorem ratMul_eq_mul (a b : Rat) : ratMul a b = a * b := by
  rw [Rat.mul_def]
  unfold ratMul mkRat
  rw [dif_neg (Nat.mul_ne_zero a.den_nz b.den_nz)]

theorem jsRound_eq_floor (q : Rat) : jsRound q = ((⌊q + 1 / 2⌋ : Int) : Rat) := by
  unfold jsRound
  congr 1
  have h2 : (0 : Int) ≤ 2 * (q.den : Int) := by positivity
  rw [Int.fdiv_eq_ediv _ h2]
  have hden : ((2 * q.den : Nat) : Rat) ≠ 0 :=
    Nat.cast_ne_zero.mpr (Nat.mul_ne_zero (by omega) q.den_nz)
  have hqd : (q.num : Rat) / (q.den : Rat) = q := Rat.num_div_den q
  have hd : ((q.den : Rat)) ≠ 0 := Nat.cast_ne_zero.mpr q.den_nz
  have hmul : q * (q.den : Rat) = (q.num : Rat) := by
    have hstep := congrArg (fun x : Rat => x * (q.den : Rat)) hqd
    simp only [div_mul_cancel₀ _ hd] at hstep
    exact hstep.symm
  have h1 : q + 1 / 2 =
      ((2 * q.num + (q.den : Int) : Int) : Rat) / ((2 * q.den : Nat) : Rat) := by
    rw [eq_div_iff hden]
    push_cast
    linear_combination 2 * hmul
  rw [h1, Rat.floor_intCast_div_natCast]
  push_cast
  rfl

/-! ## Alert conditions (`lib/api.ts` `AlertCondition`, `lib/modules.ts`
`ALERT_CONDITION_ALIASES` / `parseAlertCondition`) -/

/-- The frontend union type `AlertCondition` has exactly these six values. -/
inductive AlertCondition
  | price_above
  | price_below
  | crosses_above
  | crosses_below
  | percent_move_up
  | percent_move_down
deriving DecidableEq, Repr

/-- `ALERT_CONDITION_ALIASES` record, as an association list. -/
def ALERT_CONDITION_ALIASES : List (String × AlertCondition) :=
  [("ABOVE", .price_above), ("PRICE_ABOVE", .price_above),
   ("BELOW", .price_below), ("PRICE_BELOW", .price_below),
   ("XABOVE", .crosses_above), ("CROSSES_ABOVE", .crosses_above),
   ("XBELOW", .crosses_below), ("CROSSES_BELOW", .crosses_below),
   ("PCTUP", .percent_move_up), ("PCT_UP", .percent_move_up),
   ("MOVEUP", .percent_move_up),
   ("PCTDOWN", .percent_move_down), ("PCT_DOWN", .percent_move_down),
   ("MOVEDOWN", .percent_move_down),
   ("PERCENT_MOVE_UP", .percent_move_up),
   ("PERCENT_MOVE_DOWN", .percent_move_down)]

/-- `parseAlertCondition(rawToken?)`; `none`/empty token is falsy and
yields `null`. -/
def parseAlertCondition (rawToken : Option String) : Option AlertCondition :=
  match rawToken with
  | none => none
  | some raw =>
    if raw = "" then none
    else
      let token := jsUpper (jsTrim raw)
      (ALERT_CONDITION_ALIASES.find? (fun p => p.1 == token)).map Prod.snd

/-! ## Module codes and terminal commands (`lib/modules.ts`) -/

/-- The `MODULES` union (the `part_010` revision, which includes `ALRT`). -/
inductive ModuleCode
  | MMAP | INTRA | EQRT | WL | ALRT | EQ | ECOF | NEWS | PORT | EQS
  | FI | FA | GP | FX | CMDT | CRYPTO | MSG
deriving DecidableEq, Repr

def moduleCodeStr : ModuleCode → String
  | .MMAP => "MMAP" | .INTRA => "INTRA" | .EQRT => "EQRT" | .WL => "WL"
  | .ALRT => "ALRT" | .EQ => "EQ" | .ECOF => "ECOF" | .NEWS => "NEWS"
  | .PORT => "PORT" | .EQS => "EQS" | .FI => "FI" | .FA => "FA"
  | .GP => "GP" | .FX => "FX" | .CMDT => "CMDT" | .CRYPTO => "CRYPTO"
  | .MSG => "MSG"

/-- `MODULES.includes(keyword)` together with the cast to `ModuleCode`. -/
def moduleOfString : String → Option ModuleCode
  | "MMAP" => some .MMAP | "INTRA" => some .INTRA | "EQRT" => some .EQRT
  | "WL" => some .WL | "ALRT" => some .ALRT | "EQ" => some .EQ
  | "ECOF" => some .ECOF | "NEWS" => some .NEWS | "PORT" => some .PORT
  | "EQS" => some .EQS | "FI" => some .FI | "FA" => some .FA
  | "GP" => some .GP | "FX" => some .FX | "CMDT" => some .CMDT
  | "CRYPTO" => some .CRYPTO | "MSG" => some .MSG
  | _ => none

structure CommandContext where
  symbol : Option String
deriving DecidableEq, Repr

/-- The `TerminalCommand` union. -/
inductive TerminalCommand
  | openModule (module : ModuleCode) (context : Option CommandContext)
  | watchlistAdd (symbol : String)
  | watchlistRemove (symbol : String)
  | alertAdd (symbol : String) (condition : AlertCondition) (threshold : Rat)
  | alertRemove (alertId : Int)
  | setMmapRefresh (intervalMs : Rat)
  | unknown (raw : String)
deriving DecidableEq, Repr

/-- `value.replace(/MS$/i, '')`-style case-insensitive suffix strip. -/
def stripSuffixCI (s suf : String) : String :=
  if jsEndsWith (jsUpper s) suf then jsDropRight s suf.data.length else s

/-- The body of `parseMmapRefresh` once the `MMAP REFRESH` shape check has
passed, over the local `value = tokens[2].trim()`. -/
def mmapRefreshCommand (value : String) : Option TerminalCommand :=
  match jsNumber (stripSuffixCI (stripSuffixCI value "MS") "S") with
  | none => some (.unknown ("MMAP REFRESH " ++ value))
  | some numeric =>
    if numeric ≤ 0 then some (.unknown ("MMAP REFRESH " ++ value))
    else
      some (.setMmapRefresh (jsMax 500
        (if jsEndsWith value "MS" then jsRound numeric
         else jsRound (ratMul numeric 1000))))

/-- `parseMmapRefresh(tokens)` from `lib/modules.ts`. -/
def parseMmapRefresh (tokens : List String) : Option TerminalCommand :=
  if tokens.length < 3 ∨ tokens[0]? ≠ some "MMAP" ∨ tokens[1]? ≠ some "REFRESH" then
    none
  else mmapRefreshCommand (jsTrim (tokens[2]?.getD ""))

/-- Worker for JavaScript `split(' ')`: cut at every single space, keeping
empty fields; `acc` holds the current field reversed. -/
def jsSplitSpaceGo : List Char → List Char → List String
  | [], acc => [String.mk acc.reverse]
  | ch :: rest, acc =>
    if ch = ' ' then String.mk acc.reverse :: jsSplitSpaceGo rest []
    else jsSplitSpaceGo rest (ch :: acc)

/-- JavaScript `s.split(' ')`. -/
def jsSplitSpace (s : String) : List String := jsSplitSpaceGo s.data []

/-- The token list `upper.split(' ')` computed by `parseCommand`. -/
def tokensOf (rawInput : String) : List String :=
  jsSplitSpace (jsTrim (jsCollapseWs (jsUpper (jsTrim rawInput))))

/-- The `EQRT`/`INTRA` branch: the symbol is
`normalizeSymbolToken(arg1 ?? 'AAPL') || 'AAPL'`. -/
def intraCommand (tokens : List String) : TerminalCommand :=
  .openModule .INTRA (some ⟨some
    (if normalizeSymbolToken (tokens[1]?.getD "AAPL") = "" then "AAPL"
     else normalizeSymbolToken (tokens[1]?.getD "AAPL"))⟩)

/-- The `WL` branch over the locals `arg1`, `arg2`. -/
def wlCommand (rawInput arg1 arg2 : String) : TerminalCommand :=
  if arg1 = "" then .openModule .WL none
  else if arg1 = "ADD" ∧ arg2 ≠ "" then
    (if normalizeSymbolToken arg2 = "" then .unknown rawInput
     else .watchlistAdd (normalizeSymbolToken arg2))
  else if (arg1 = "DEL" ∨ arg1 = "REMOVE" ∨ arg1 = "RM") ∧ arg2 ≠ "" then
    (if normalizeSymbolToken arg2 = "" then .unknown rawInput
     else .watchlistRemove (normalizeSymbolToken arg2))
  else .openModule .WL none

/-- The `ALRT ADD` branch over `tokens[2]`, `tokens[3]`, `tokens[4]`. -/
def alrtAddCommand (rawInput symTok : String) (condTok valTok : Option String) :
    TerminalCommand :=
  match parseAlertCondition condTok, valTok.bind jsNumber with
  | some cond, some v =>
    if normalizeSymbolToken symTok = "" ∨ v ≤ 0 then .unknown rawInput
    else .alertAdd (normalizeSymbolToken symTok) cond v
  | _, _ => .unknown rawInput

/-- The `ALRT RM`/`DEL`/`REMOVE` branch over `arg2`. -/
def alrtRemoveCommand (rawInput arg2 : String) : TerminalCommand :=
  match jsNumber arg2 with
  | some q => if q.den = 1 ∧ 0 < q then .alertRemove q.num else .unknown rawInput
  | none => .unknown rawInput

/-- The `ALRT` branch. -/
def alrtCommand (rawInput : String) (tokens : List String) : TerminalCommand :=
  if tokens[1]?.getD "" = "" then .openModule .ALRT none
  else if tokens[1]?.getD "" = "ADD" then
    alrtAddCommand rawInput (tokens[2]?.getD "") tokens[3]? tokens[4]?
  else if (tokens[1]?.getD "" = "RM" ∨ tokens[1]?.getD "" = "DEL" ∨
      tokens[1]?.getD "" = "REMOVE") ∧ tokens[2]?.getD "" ≠ "" then
    alrtRemoveCommand rawInput (tokens[2]?.getD "")
  else .openModule .ALRT none

/-- The body of `parseCommand` after the empty-input guard, over the token
list `upper.split(' ')`.  JavaScript truthiness of possibly-missing tokens
is modelled by defaulting to the empty string, which the source treats
identically (both are falsy, and neither equals any keyword). -/
def parseCommandCore (rawInput : String) (tokens : List String) : TerminalCommand :=
  match parseMmapRefresh tokens with
  | some cmd => cmd
  | none =>
    if tokens[0]?.getD "" = "EQRT" ∨ tokens[0]?.getD "" = "INTRA" then
      intraCommand tokens
    else if tokens[0]?.getD "" = "WL" then
      wlCommand rawInput (tokens[1]?.getD "") (tokens[2]?.getD "")
    else if tokens[0]?.getD "" = "ALRT" then
      alrtCommand rawInput tokens
    else
      match moduleOfString (tokens[0]?.getD "") with
      | some m => .openModule m none
      | none => .unknown rawInput

/-- `parseCommand(rawInput)` from `lib/modules.ts` (`part_010` revision,
with the `ALRT` command family). -/
def parseCommand (rawInput : String) : TerminalCommand :=
  if jsTrim rawInput = "" then .unknown ""
  else parseCommandCore rawInput (tokensOf rawInput)

/-! ## CommandBar dispatch (`CommandBar.onSubmit`, `part_005`) -/

/-- The backend API calls that `CommandBar.onSubmit` can issue. -/
inductive ApiRequest
  | addWatchlistSymbol (symbol : String)
  | removeWatchlistSymbol (symbol : String)
  | createPriceAlert (symbol : String) (condition : AlertCondition) (threshold : Rat)
  | removePriceAlert (alertId : Int)
deriving DecidableEq, Repr

/-- Which API request(s) `onSubmit` issues for a parsed command; the
`open-module`, `set-mmap-refresh` and `unknown` branches issue none. -/
def commandRequests : TerminalCommand → List ApiRequest
  | .watchlistAdd s => [.addWatchlistSymbol s]
  | .watchlistRemove s => [.removeWatchlistSymbol s]
  | .alertAdd s c t => [.createPriceAlert s c t]
  | .alertRemove i => [.removePriceAlert i]
  | _ => []

/-- The symbols embedded in a terminal command (watchlist add/remove and
alert-add symbols, and the symbol context of an open-module command). -/
def commandSymbols : TerminalCommand → List String
  | .openModule _ ctx => ((ctx.bind CommandContext.symbol).map (fun s => [s])).getD []
  | .watchlistAdd s => [s]
  | .watchlistRemove s => [s]
  | .alertAdd s _ _ => [s]
  | _ => []

/-! ## Terminal store (`useTerminalStore.ts`, `part_002` revision) -/

structure PanelConfig where
  id : String
  module : ModuleCode
  title : String
  context : Option CommandContext
deriving DecidableEq, Repr

/-- One `react-grid-layout` entry; `y = none` models `y: Infinity`. -/
structure LayoutItem where
  i : String
  x : Rat
  y : Option Rat
  w : Rat
  h : Rat
  minW : Rat
  minH : Rat
deriving DecidableEq, Repr

/-- The store fields touched by the embedded actions (`densityMode` and the
action closures are omitted; no claim concerns them). -/
structure TerminalState where
  panels : List PanelConfig
  layout : List LayoutItem
  activePanelId : Option String
  commandFeedback : String
  mmapRefreshMs : Rat
deriving DecidableEq, Repr

/-- `MODULE_TITLES`. -/
def moduleTitle : ModuleCode → String
  | .MMAP => "Market Overview" | .INTRA => "Intraday Realtime"
  | .EQRT => "Intraday Realtime" | .WL => "Watchlist" | .ALRT => "Alerts"
  | .EQ => "Equities" | .ECOF => "Economic Forecasts" | .NEWS => "News Monitor"
  | .PORT => "Portfolio Monitor" | .EQS => "Equity Screen" | .FI => "Fixed Income"
  | .FA => "Financial Analysis" | .GP => "Graph Panel" | .FX => "FX Matrix"
  | .CMDT => "Commodities" | .CRYPTO => "Crypto Monitor" | .MSG => "Messaging"

/-- `buildPanelTitle(module, context)`; `context?.symbol` is truthy exactly
when the symbol is present and non-empty. -/
def buildPanelTitle (module : ModuleCode) (context : Option CommandContext) : String :=
  let sym := context.bind CommandContext.symbol
  if (module = .INTRA ∨ module = .EQRT) ∧ sym.getD "" ≠ "" then
    "Intraday " ++ sym.getD ""
  else moduleTitle module

def INITIAL_PANELS : List PanelConfig :=
  [⟨"mmap-main", .MMAP, "Market Overview", none⟩]

def INITIAL_LAYOUT : List LayoutItem :=
  [⟨"mmap-main", 0, some 0, 12, 16, 4, 8⟩]

/-- The store's initial state (with the default 2000 ms MMAP refresh). -/
def initialTerminalState : TerminalState :=
  ⟨INITIAL_PANELS, INITIAL_LAYOUT, some "mmap-main",
    "Try: MMAP | INTRA AAPL | WL | WL ADD EURUSD", 2000⟩

/-- `setMmapRefreshMs: (value) => set({ mmapRefreshMs: Math.max(500, Math.round(value)) })`. -/
def setMmapRefreshMs (st : TerminalState) (value : Rat) : TerminalState :=
  { st with mmapRefreshMs := jsMax 500 (jsRound value) }

/-- `closePanel`'s local: `activePanelId` survives when it names a panel
other than the closed one that is still among `nextPanels`
(`activePanelId === panelId || !nextPanels.some(...)` negated). -/
def closePanelKeepActive (nextPanels : List PanelConfig) (activePanelId : Option String)
    (panelId : String) : Bool :=
  match activePanelId with
  | some a => !(a == panelId) && nextPanels.any (fun panel => panel.id == a)
  | none => false

/-- `closePanel`'s local `nextActivePanelId`:
`nextPanels[Math.max(0, index - 1)]?.id ?? nextPanels[0]?.id ?? null`. -/
def closePanelNextActive (nextPanels : List PanelConfig) (activePanelId : Option String)
    (panelId : String) (index : Nat) : Option String :=
  if closePanelKeepActive nextPanels activePanelId panelId then activePanelId
  else ((nextPanels[index - 1]?).map PanelConfig.id).orElse
    (fun _ => (nextPanels[0]?).map PanelConfig.id)

/-- `closePanel(panelId)` from the store. -/
def closePanel (st : TerminalState) (panelId : String) : TerminalState :=
  if st.panels.length ≤ 1 then
    { st with commandFeedback := "At least one panel must remain open." }
  else
    match st.panels.findIdx? (fun panel => panel.id == panelId) with
    | none => st
    | some index =>
      { st with
        panels := st.panels.filter (fun panel => panel.id != panelId)
        layout := st.layout.filter (fun entry => entry.i != panelId)
        activePanelId := closePanelNextActive
          (st.panels.filter (fun panel => panel.id != panelId)) st.activePanelId
          panelId index
        commandFeedback := "Closed " ++
          (((st.panels[index]?).map (fun p => moduleCodeStr p.module)).getD "") }

/-- `openModule`'s local `normalizedModule`. -/
def normalizeModuleCode (module : ModuleCode) : ModuleCode :=
  if module = ModuleCode.EQRT then ModuleCode.INTRA else module

/-- `openModule`'s local `normalizedContext`: INTRA panels always carry
`normalizeSymbolToken(context?.symbol ?? 'AAPL') || 'AAPL'`. -/
def openModuleContext (module : ModuleCode) (context : Option CommandContext) :
    Option CommandContext :=
  if normalizeModuleCode module = ModuleCode.INTRA then
    some ⟨some
      (if normalizeSymbolToken ((context.bind CommandContext.symbol).getD "AAPL") = ""
       then "AAPL"
       else normalizeSymbolToken ((context.bind CommandContext.symbol).getD "AAPL"))⟩
  else context

/-- The truthy `normalizedContext?.symbol` used in the feedback strings. -/
def openModuleIntraSym (module : ModuleCode) (context : Option CommandContext) :
    Option String :=
  match (openModuleContext module context).bind CommandContext.symbol with
  | some s => if s = "" then none else some s
  | none => none

/-- The `existing` search predicate: INTRA panels match on module and
context symbol, other modules on the module alone. -/
def openModulePanelPred (module : ModuleCode) (context : Option CommandContext)
    (panel : PanelConfig) : Bool :=
  if normalizeModuleCode module = ModuleCode.INTRA then
    panel.module == ModuleCode.INTRA &&
      (panel.context.bind CommandContext.symbol) ==
        ((openModuleContext module context).bind CommandContext.symbol)
  else panel.module == normalizeModuleCode module

/-- `openModule`'s local `nextId`; `now` stands for `Date.now().toString(36)`. -/
def openModuleNewId (module : ModuleCode) (now : String) : String :=
  jsLower (moduleCodeStr (normalizeModuleCode module)) ++ "-" ++ now

/-- `openModule`'s local `nextPanel`. -/
def openModuleNewPanel (module : ModuleCode) (context : Option CommandContext)
    (now : String) : PanelConfig :=
  ⟨openModuleNewId module now, normalizeModuleCode module,
    buildPanelTitle (normalizeModuleCode module) (openModuleContext module context),
    openModuleContext module context⟩

/-- `openModule`'s local `nextLayout`. -/
def openModuleNewLayout (panelCount : Nat) (module : ModuleCode) (now : String) :
    LayoutItem :=
  ⟨openModuleNewId module now, ((panelCount * 3) % 12 : Nat), none,
    (if normalizeModuleCode module = ModuleCode.WL then 6 else 7),
    (if normalizeModuleCode module = ModuleCode.WL then 12 else 11), 3, 8⟩

/-- `openModule(module, context)` from the store. -/
def openModule (st : TerminalState) (module : ModuleCode)
    (context : Option CommandContext) (now : String) : TerminalState :=
  match st.panels.find? (openModulePanelPred module context) with
  | some p =>
    { st with
      activePanelId := some p.id
      commandFeedback :=
        if normalizeModuleCode module = ModuleCode.INTRA ∧
            (openModuleIntraSym module context).isSome then
          "INTRA " ++ (openModuleIntraSym module context).getD "" ++ " already open"
        else moduleCodeStr (normalizeModuleCode module) ++ " already open" }
  | none =>
    { st with
      panels := st.panels ++ [openModuleNewPanel module context now]
      layout := st.layout ++ [openModuleNewLayout st.panels.length module now]
      activePanelId := some (openModuleNewId module now)
      commandFeedback :=
        if normalizeModuleCode module = ModuleCode.INTRA ∧
            (openModuleIntraSym module context).isSome then
          "Opened INTRA " ++ (openModuleIntraSym module context).getD ""
        else "Opened " ++ moduleCodeStr (normalizeModuleCode module) ++
          " in a new panel" }

/-! ## Query hooks: refetch intervals

`useMarketOverview` uses `Math.max(500, refreshIntervalMs)`;
`useWatchlist` and `useIntraday` use
`Math.max(500, Number.isFinite(DEFAULT_REFRESH_MS) ? DEFAULT_REFRESH_MS : 2000)`
(the possibly-`NaN` env-derived default is an `Option Rat` here). -/

def marketOverviewRefetchIntervalMs (refreshIntervalMs : Rat) : Rat :=
  jsMax 500 refreshIntervalMs

def watchlistRefetchIntervalMs (defaultRefreshMs : Option Rat) : Rat :=
  jsMax 500 (defaultRefreshMs.getD 2000)

def intradayRefetchIntervalMs (defaultRefreshMs : Option Rat) : Rat :=
  jsMax 500 (defaultRefreshMs.getD 2000)

/-! ## Intraday stream status machine (`useIntraday.ts`) -/

inductive IntradayStreamStatus
  | polling
  | connecting
  | live
deriving DecidableEq, Repr

/-- The react-query options `useIntraday` passes to `useQuery`; they are
fixed at mount and no WebSocket handler ever writes them. -/
structure IntradayQueryCfg where
  retry : Nat
  refetchOnWindowFocus : Bool
  refetchIntervalMs : Rat
deriving DecidableEq, Repr

def intradayQueryCfg (defaultRefreshMs : Option Rat) : IntradayQueryCfg :=
  ⟨1, false, intradayRefetchIntervalMs defaultRefreshMs⟩

/-- The hook state visible to the claims: the stream status, the polling
query configuration, and the query cache entry for the symbol. -/
structure IntradayHookState (α : Type) where
  status : IntradayStreamStatus
  queryCfg : IntradayQueryCfg
  queryData : Option α
deriving DecidableEq, Repr

/-- Events of one mounted `useIntraday` effect: WebSocket construction
outcome, open/close/error, and the three kinds of incoming message
(`payload` parses as a snapshot, payload carries an `error` key, payload
fails to parse). -/
inductive IntradayWsEvent (α : Type)
  | constructOk
  | constructFailed
  | opened
  | closed
  | errored
  | messageSnapshot (payload : α)
  | messageWithError
  | messageMalformed
deriving DecidableEq, Repr

/-- Transition function read off the `useIntraday` effect body. -/
def intradayStep {α : Type} (s : IntradayHookState α) :
    IntradayWsEvent α → IntradayHookState α
  | .constructOk => { s with status := .connecting }
  | .constructFailed => { s with status := .polling }
  | .opened => { s with status := .live }
  | .closed => { s with status := .polling }
  | .errored => { s with status := .polling }
  | .messageSnapshot p => { s with queryData := some p }
  | .messageWithError => s
  | .messageMalformed => s

/-! ## Alert notification poller (`useAlertNotifications.ts`) -/

/-- Poller refs: `latestIdRef` and `initializedRef`. -/
structure PollState where
  latestId : Nat
  initialized : Bool
deriving DecidableEq, Repr

def initialPollState : PollState := ⟨0, false⟩

/-- The query-string parameters `fetchAlertEvents` receives from `poll`:
`afterId: latestIdRef.current || undefined, limit: 25`. -/
structure AlertFeedRequest where
  afterId : Option Nat
  limit : Nat
deriving DecidableEq, Repr

def buildAlertFeedRequest (s : PollState) : AlertFeedRequest :=
  ⟨if s.latestId = 0 then none else some s.latestId, 25⟩

/-- `[...eventsResponse.items].sort((a, b) => a.id - b.id)`, on the ids.
(Only the event ids drive the cursor and the processing order, so the
response is modelled as its list of ids; any correct ascending sort is
extensionally the JavaScript one here.) -/
def jsSortIds (items : List Nat) : List Nat :=
  items.insertionSort (fun a b => a ≤ b)

/-- One execution of `poll`: `response = none` models a failed fetch (the
`catch` arm), otherwise the ids of `eventsResponse.items`.  Returns the new
ref state and the ordered ids the poll turns into toasts (empty when the
poll is the initializing one). -/
def pollStep (s : PollState) (response : Option (List Nat)) : PollState × List Nat :=
  match response with
  | none => ({ s with initialized := true }, [])
  | some items =>
    if items.isEmpty then ({ s with initialized := true }, [])
    else
      if s.initialized then
        (⟨(jsSortIds items).getLast?.getD s.latestId, true⟩, jsSortIds items)
      else
        (⟨(jsSortIds items).getLast?.getD s.latestId, true⟩, [])

/-- Run a sequence of polls, recording the request built for each together
with the ids it processed into toasts, in processing order. -/
def runPolls (s : PollState) : List (Option (List Nat)) → List (AlertFeedRequest × List Nat)
  | [] => []
  | r :: rest =>
    let req := buildAlertFeedRequest s
    let out := pollStep s r
    (req, out.2) :: runPolls out.1 rest

/-- The stored cursor (`latestIdRef.current`) after each poll. -/
def pollCursors (s : PollState) : List (Option (List Nat)) → List Nat
  | [] => []
  | r :: rest =>
    (pollStep s r).1.latestId :: pollCursors (pollStep s r).1 rest

/-- The trigger-event feed contract (`spec.md` §3: append-only, ordered by
id, served incrementally): every id a poll returns is strictly greater than
the cursor the poll was issued with. -/
def FeedContract (s : PollState) : List (Option (List Nat)) → Bool
  | [] => true
  | r :: rest =>
    ((r.getD []).all fun i => decide (s.latestId < i)) &&
      FeedContract (pollStep s r).1 rest

/-- The requests the claim describes: `afterId` is the largest id seen over
all previous responses (absent while none has been seen), `limit` is 25. -/
def specRequests (m : Nat) : List (Option (List Nat)) → List AlertFeedRequest
  | [] => []
  | r :: rest =>
    ⟨if m = 0 then none else some m, 25⟩ :: specRequests ((r.getD []).foldl max m) rest

/-! ## Toast list (`useAlertNotifications.ts` state) -/

structure AlertToast where
  id : String
  eventId : Nat
  message : String
  triggeredAt : String
deriving DecidableEq, Repr

/-- `dismissToast = (toastId) => setToasts(prev => prev.filter(t => t.id !== toastId))`. -/
def dismissToast (toasts : List AlertToast) (toastId : String) : List AlertToast :=
  toasts.filter (fun t => t.id != toastId)

/-- The three `setToasts` call sites: a poll delivering fresh toasts
(`[...newToasts, ...prev].slice(0, 6)`, guarded by `newToasts.length > 0`),
a 6-second expiry timer, and a manual dismissal. -/
inductive ToastEvent
  | pollArrived (newToasts : List AlertToast)
  | timerExpired (toastId : String)
  | dismissed (toastId : String)
deriving DecidableEq, Repr

def toastStep (toasts : List AlertToast) : ToastEvent → List AlertToast
  | .pollArrived newToasts =>
    if newToasts.isEmpty then toasts else (newToasts ++ toasts).take 6
  | .timerExpired i => toasts.filter (fun t => t.id != i)
  | .dismissed i => dismissToast toasts i

/-- The toast list reached from the initial `useState([])` by a sequence of
poll results, timer expirations and dismissals. -/
def runToastEvents (events : List ToastEvent) : List AlertToast :=
  events.foldl toastStep []

/-! ## Spec-modelled backend definitions -/

/-- Modelled from the spec: the crossing-condition subset of the backend
`AlertEvaluator` (`apps/backend` is not among the sources at hand).
§4.6: "crosses_above / crosses_below fire when the previous evaluated
state was on the opposite side of threshold and the current state is on
the target side (edge, not level)".  The on-target-side state is
"at or above" / "at or below" the threshold, which is what §8's example
forces: with threshold 100 and prices [100, 101, 99, 102] the alert must
fire only at 99→102 and in particular not at 100→101. -/
inductive CrossingCondition
  | crosses_above
  | crosses_below
deriving DecidableEq, Repr

/-- Modelled from the spec: whether a price is on the target side of the
threshold for the given crossing condition. -/
def crossingSideState : CrossingCondition → Rat → Rat → Bool
  | .crosses_above, threshold, price => decide (threshold ≤ price)
  | .crosses_below, threshold, price => decide (price ≤ threshold)

/-- Modelled from the spec: the per-alert state the evaluator persists
between ticks (`lastConditionState`, `none` before the first evaluation). -/
structure CrossingAlert where
  condition : CrossingCondition
  threshold : Rat
  lastConditionState : Option Bool
deriving DecidableEq, Repr

def initialCrossingAlert (c : CrossingCondition) (t : Rat) : CrossingAlert :=
  ⟨c, t, none⟩

/-- Modelled from the spec: one `onQuote` evaluation of a crossing alert.
It fires only when the previous evaluated state was the opposite side
(`some false`) and the current price is on the target side. -/
def crossingEvalStep (a : CrossingAlert) (price : Rat) : CrossingAlert × Bool :=
  let current := crossingSideState a.condition a.threshold price
  let fires := a.lastConditionState == some false && current
  ({ a with lastConditionState := some current }, fires)

/-- Modelled from the spec: evaluate a price sequence, returning the
fired-this-tick flag for each price in order. -/
def crossingEvalRun (a : CrossingAlert) : List Rat → List Bool
  | [] => []
  | p :: ps =>
    let out := crossingEvalStep a p
    out.2 :: crossingEvalRun out.1 ps

/-- The edge characterization, stated directly on consecutive price pairs:
never at the first tick, and at a later tick exactly when the previous
price was off the target side and the current price is on it. -/
def crossingEdgeSpecGo (c : CrossingCondition) (t : Rat) : Rat → List Rat → List Bool
  | _, [] => []
  | prev, q :: qs =>
    ((!crossingSideState c t prev) && crossingSideState c t q) ::
      crossingEdgeSpecGo c t q qs

def crossingEdgeSpec (c : CrossingCondition) (t : Rat) : List Rat → List Bool
  | [] => []
  | p :: ps => false :: crossingEdgeSpecGo c t p ps

/-- Modelled from the spec: the cache's single-flight state for one key
(`apps/backend` is not among the sources at hand).  §4.5: concurrent
callers requesting the same key while a refresh is in flight must all
await and receive the one in-flight result rather than issuing duplicate
upstream fetches.  `fresh` is the fresh-tier entry, `inflight` the result
being produced by the refresh that is currently running, and `fetchCount`
counts upstream fetches issued for the key. -/
structure CacheSF (α : Type) where
  fresh : Option α
  inflight : Option α
  fetchCount : Nat
deriving DecidableEq, Repr

/-- Modelled from the spec: `getOrRefresh(key)` for one key during one
refresh window.  A fresh hit is returned directly; otherwise a caller
joins the in-flight refresh if one is running, and only the caller that
finds no flight running issues the upstream fetch and opens the flight. -/
def getOrRefresh {α : Type} (upstreamFetch : α) (s : CacheSF α) : α × CacheSF α :=
  match s.fresh with
  | some v => (v, s)
  | none =>
    match s.inflight with
    | some v => (v, s)
    | none =>
      (upstreamFetch,
        { s with
          inflight := some upstreamFetch
          fetchCount := s.fetchCount + 1 })

/-- Modelled from the spec: `n` callers arriving at the key while the
refresh window is open (the flight, once started, has not yet completed),
each receiving its `getOrRefresh` result. -/
def runCallers {α : Type} (upstreamFetch : α) (s : CacheSF α) : Nat → List α × CacheSF α
  | 0 => ([], s)
  | n + 1 =>
    let out := getOrRefresh upstreamFetch s
    let rest := runCallers upstreamFetch out.2 n
    (out.1 :: rest.1, rest.2)

/-! ## Helper lemmas -/

theorem crossingEvalRun_someState (c : CrossingCondition) (t : Rat) :
    ∀ (ps : List Rat) (prev : Rat),
      crossingEvalRun ⟨c, t, some (crossingSideState c t prev)⟩ ps =
        crossingEdgeSpecGo c t prev ps := by
  intro ps
  induction ps with
  | nil => intro prev; rfl
  | cons q qs ih =>
    intro prev
    simp only [crossingEvalRun, crossingEvalStep, crossingEdgeSpecGo]
    rw [ih q]
    cases crossingSideState c t prev <;> rfl

theorem runCallers_joined {α : Type} (f : α) :
    ∀ (n : Nat) (s : CacheSF α), s.fresh = none → s.inflight = some f →
      runCallers f s n = (List.replicate n f, s) := by
  intro n
  induction n with
  | zero => intro s _ _; rfl
  | succ m ih =>
    intro s hf hi
    simp only [runCallers, getOrRefresh, hf, hi, List.replicate_succ]
    rw [ih s hf hi]

theorem toastStep_length {ts : List AlertToast} {e : ToastEvent}
    (h : ts.length ≤ 6) : (toastStep ts e).length ≤ 6 := by
  cases e with
  | pollArrived newToasts =>
    simp only [toastStep]
    split
    · exact h
    · exact le_trans (List.length_take_le 6 _) (le_refl 6)
  | timerExpired i => exact le_trans (List.length_filter_le _ _) h
  | dismissed i => exact le_trans (List.length_filter_le _ _) h

theorem foldl_toastStep_length :
    ∀ (events : List ToastEvent) (ts : List AlertToast), ts.length ≤ 6 →
      (events.foldl toastStep ts).length ≤ 6 := by
  intro events
  induction events with
  | nil => intro ts h; exact h
  | cons e rest ih =>
    intro ts h
    exact ih (toastStep ts e) (toastStep_length h)

/-! ## Claim theorems -/

/-- Claim C1: a crossing alert with threshold 100 evaluated from its initial
state over [100, 101, 99, 102] fires exactly once, at the 99→102 step (the
fourth tick) and not at the initial price 100; and in general a crossing
alert fires at a tick exactly when the previous evaluated state was on the
opposite side of the threshold and the current price is on the target side
(never at the first tick). -/
theorem C1_crossing_alert_fires_once_on_edge :
    crossingEvalRun (initialCrossingAlert .crosses_above 100) [100, 101, 99, 102] =
      [false, false, false, true]
    ∧ (crossingEvalRun (initialCrossingAlert .crosses_above 100)
        [100, 101, 99, 102]).count true = 1
    ∧ ∀ (c : CrossingCondition) (t : Rat) (ps : List Rat),
        crossingEvalRun (initialCrossingAlert c t) ps = crossingEdgeSpec c t ps := by
  refine ⟨by decide, by decide, ?_⟩
  intro c t ps
  cases ps with
  | nil => rfl
  | cons p rest =>
    simp only [crossingEvalRun, crossingEvalStep, initialCrossingAlert,
      crossingEdgeSpec]
    rw [crossingEvalRun_someState c t rest p]
    rfl

/-- Claim C2: with no fresh entry and a refresh window that stays open, any
number n ≥ 2 of concurrent cache-miss callers of getOrRefresh on the same
key issue exactly one upstream fetch, and every caller receives the one
in-flight result. -/
theorem C2_single_flight_coalesces :
    ∀ (α : Type) (f : α) (s : CacheSF α) (n : Nat),
      s.fresh = none → s.inflight = none → 2 ≤ n →
      (runCallers f s n).1 = List.replicate n f ∧
        (runCallers f s n).2.fetchCount = s.fetchCount + 1 := by
  intro α f s n hf hi hn
  cases n with
  | zero => omega
  | succ m =>
    simp only [runCallers, getOrRefresh, hf, hi]
    rw [runCallers_joined f m _ rfl rfl]
    simp [List.replicate_succ]

theorem C2_witness :
    (runCallers 7 (⟨none, none, 0⟩ : CacheSF Nat) 3).1 = List.replicate 3 7 ∧
      (runCallers 7 (⟨none, none, 0⟩ : CacheSF Nat) 3).2.fetchCount = 0 + 1 :=
  C2_single_flight_coalesces Nat 7 ⟨none, none, 0⟩ 3 rfl rfl (by omega)

/-- Claim C6: parseAlertCondition returns null or one of exactly the six
conditions; each of the six is reachable from at least one alias token; and
the AlertCondition type admits exactly these six values. -/
theorem C6_alert_condition_complete :
    (∀ t : Option String, parseAlertCondition t = none ∨
      ∃ c, parseAlertCondition t = some c ∧
        c ∈ [AlertCondition.price_above, AlertCondition.price_below,
          AlertCondition.crosses_above, AlertCondition.crosses_below,
          AlertCondition.percent_move_up, AlertCondition.percent_move_down])
    ∧ (∀ c : AlertCondition, ∃ tok : String, parseAlertCondition (some tok) = some c)
    ∧ (∀ c : AlertCondition,
        c ∈ [AlertCondition.price_above, AlertCondition.price_below,
          AlertCondition.crosses_above, AlertCondition.crosses_below,
          AlertCondition.percent_move_up, AlertCondition.percent_move_down]) := by
  refine ⟨?_, ?_, ?_⟩
  · intro t
    cases h : parseAlertCondition t with
    | none => exact Or.inl rfl
    | some c =>
      refine Or.inr ⟨c, rfl, ?_⟩
      cases c <;> decide
  · intro c
    cases c with
    | price_above => exact ⟨"ABOVE", by decide⟩
    | price_below => exact ⟨"BELOW", by decide⟩
    | crosses_above => exact ⟨"XABOVE", by decide⟩
    | crosses_below => exact ⟨"XBELOW", by decide⟩
    | percent_move_up => exact ⟨"PCTUP", by decide⟩
    | percent_move_down => exact ⟨"PCTDOWN", by decide⟩
  · intro c
    cases c <;> decide

/-- Claim C7: the intraday stream status only takes the values polling,
connecting and live; every WebSocket error event, close event or
construction failure sets it back to polling; message events (well-formed,
error-carrying, or malformed) never change the status; and no WebSocket
event whatsoever alters the polling query configuration. -/
theorem C7_stream_supplements_polling :
    ∀ (α : Type) (s : IntradayHookState α) (e : IntradayWsEvent α),
      (intradayStep s e).queryCfg = s.queryCfg
      ∧ (intradayStep s .closed).status = .polling
      ∧ (intradayStep s .errored).status = .polling
      ∧ (intradayStep s .constructFailed).status = .polling
      ∧ intradayStep s .messageWithError = s
      ∧ intradayStep s .messageMalformed = s
      ∧ (∀ p : α, (intradayStep s (.messageSnapshot p)).status = s.status)
      ∧ ((intradayStep s e).status = .polling ∨
          (intradayStep s e).status = .connecting ∨
          (intradayStep s e).status = .live) := by
  intro α s e
  refine ⟨?_, rfl, rfl, rfl, rfl, rfl, fun p => rfl, ?_⟩
  · cases e <;> rfl
  · cases e with
    | constructOk => exact Or.inr (Or.inl rfl)
    | constructFailed => exact Or.inl rfl
    | opened => exact Or.inr (Or.inr rfl)
    | closed => exact Or.inl rfl
    | errored => exact Or.inl rfl
    | messageSnapshot p => cases h : s.status <;> simp [intradayStep, h]
    | messageWithError => cases h : s.status <;> simp [intradayStep, h]
    | messageMalformed => cases h : s.status <;> simp [intradayStep, h]

/-- Claim C10: after any sequence of poll deliveries, timer expirations and
manual dismissals starting from the empty toast list, at most 6 toasts are
held; and dismissToast removes exactly the toasts carrying the given id
while keeping every other toast (in order). -/
theorem C10_toast_list_bounded_and_dismiss_exact :
    (∀ events : List ToastEvent, (runToastEvents events).length ≤ 6)
    ∧ (∀ (ts : List AlertToast) (i : String), List.Sublist (dismissToast ts i) ts)
    ∧ (∀ (ts : List AlertToast) (i : String) (t : AlertToast),
        t ∈ dismissToast ts i ↔ t ∈ ts ∧ t.id ≠ i) := by
  refine ⟨?_, ?_, ?_⟩
  · intro events
    exact foldl_toastStep_length events [] (by simp)
  · intro ts i
    exact List.filter_sublist ts
  · intro ts i t
    simp [dismissToast, List.mem_filter, bne_iff_ne]

theorem le_jsMax_left (a b : Rat) : a ≤ jsMax a b := by
  unfold jsMax
  split
  · assumption
  · exact le_refl a

theorem parseMmapRefresh_bound {ts : List String} {n : Rat}
    (h : parseMmapRefresh ts = some (TerminalCommand.setMmapRefresh n)) : 500 ≤ n := by
  unfold parseMmapRefresh at h
  split at h
  · exact absurd h (by simp)
  · unfold mmapRefreshCommand at h
    split at h
    · simp at h
    · split at h
      · simp at h
      · simp only [Option.some.injEq, TerminalCommand.setMmapRefresh.injEq] at h
        rw [← h]
        exact le_jsMax_left _ _

theorem parseMmapRefresh_result {ts : List String} {cmd : TerminalCommand}
    (h : parseMmapRefresh ts = some cmd) :
    (∃ n, cmd = TerminalCommand.setMmapRefresh n) ∨ (∃ w, cmd = .unknown w) := by
  unfold parseMmapRefresh at h
  split at h
  · exact absurd h (by simp)
  · unfold mmapRefreshCommand at h
    split at h
    · exact Or.inr ⟨_, (Option.some.injEq _ _ ▸ h).symm⟩
    · split at h
      · exact Or.inr ⟨_, (Option.some.injEq _ _ ▸ h).symm⟩
      · exact Or.inl ⟨_, (Option.some.injEq _ _ ▸ h).symm⟩

theorem normalizeSymbolToken_or_default_fixed (t : String) :
    normalizeSymbolToken
        (if normalizeSymbolToken t = "" then "AAPL" else normalizeSymbolToken t) =
      (if normalizeSymbolToken t = "" then "AAPL" else normalizeSymbolToken t) := by
  split
  · decide
  · exact normalizeSymbolToken_idem t

theorem wlCommand_shape (r a1 a2 : String) :
    wlCommand r a1 a2 = .openModule .WL none
    ∨ (∃ s, wlCommand r a1 a2 = .watchlistAdd s ∧ normalizeSymbolToken s = s)
    ∨ (∃ s, wlCommand r a1 a2 = .watchlistRemove s ∧ normalizeSymbolToken s = s)
    ∨ wlCommand r a1 a2 = .unknown r := by
  unfold wlCommand
  split_ifs <;>
    first
      | exact Or.inl rfl
      | exact Or.inr (Or.inr (Or.inr rfl))
      | exact Or.inr (Or.inl ⟨_, rfl, normalizeSymbolToken_idem _⟩)
      | exact Or.inr (Or.inr (Or.inl ⟨_, rfl, normalizeSymbolToken_idem _⟩))

theorem alrtAddCommand_shape (r st : String) (ct vt : Option String) :
    (∃ s c v, alrtAddCommand r st ct vt = .alertAdd s c v ∧ normalizeSymbolToken s = s)
    ∨ alrtAddCommand r st ct vt = .unknown r := by
  unfold alrtAddCommand
  split
  · split_ifs
    · exact Or.inr rfl
    · exact Or.inl ⟨_, _, _, rfl, normalizeSymbolToken_idem _⟩
  · exact Or.inr rfl

theorem alrtRemoveCommand_shape (r a2 : String) :
    (∃ i, alrtRemoveCommand r a2 = .alertRemove i)
    ∨ alrtRemoveCommand r a2 = .unknown r := by
  unfold alrtRemoveCommand
  split
  · split_ifs
    · exact Or.inl ⟨_, rfl⟩
    · exact Or.inr rfl
  · exact Or.inr rfl

theorem alrtCommand_shape (r : String) (ts : List String) :
    alrtCommand r ts = .openModule .ALRT none
    ∨ (∃ s c v, alrtCommand r ts = .alertAdd s c v ∧ normalizeSymbolToken s = s)
    ∨ (∃ i, alrtCommand r ts = .alertRemove i)
    ∨ alrtCommand r ts = .unknown r := by
  unfold alrtCommand
  split_ifs
  · exact Or.inl rfl
  · rcases alrtAddCommand_shape r (ts[2]?.getD "") ts[3]? ts[4]? with ⟨s, c, v, he, hf⟩ | he
    · exact Or.inr (Or.inl ⟨s, c, v, he, hf⟩)
    · exact Or.inr (Or.inr (Or.inr he))
  · rcases alrtRemoveCommand_shape r (ts[2]?.getD "") with ⟨i, he⟩ | he
    · exact Or.inr (Or.inr (Or.inl ⟨i, he⟩))
    · exact Or.inr (Or.inr (Or.inr he))
  · exact Or.inl rfl

theorem parseCommandCore_shape (r : String) (ts : List String) :
    (∃ cmd, parseMmapRefresh ts = some cmd ∧ parseCommandCore r ts = cmd)
    ∨ (∃ m ctx, parseCommandCore r ts = .openModule m ctx ∧
        (ctx = none ∨ ∃ s, ctx = some ⟨some s⟩ ∧ normalizeSymbolToken s = s))
    ∨ (∃ s, parseCommandCore r ts = .watchlistAdd s ∧ normalizeSymbolToken s = s)
    ∨ (∃ s, parseCommandCore r ts = .watchlistRemove s ∧ normalizeSymbolToken s = s)
    ∨ (∃ s c v, parseCommandCore r ts = .alertAdd s c v ∧ normalizeSymbolToken s = s)
    ∨ (∃ i, parseCommandCore r ts = .alertRemove i)
    ∨ (∃ w, parseCommandCore r ts = .unknown w) := by
  unfold parseCommandCore
  split
  · next cmd heq => exact Or.inl ⟨cmd, heq, rfl⟩
  · split_ifs with h1 h2 h3
    · exact Or.inr (Or.inl ⟨_, _, rfl,
        Or.inr ⟨_, rfl, normalizeSymbolToken_or_default_fixed _⟩⟩)
    · rcases wlCommand_shape r (ts[1]?.getD "") (ts[2]?.getD "") with
        he | ⟨s, he, hf⟩ | ⟨s, he, hf⟩ | he
      · exact Or.inr (Or.inl ⟨_, _, he, Or.inl rfl⟩)
      · exact Or.inr (Or.inr (Or.inl ⟨s, he, hf⟩))
      · exact Or.inr (Or.inr (Or.inr (Or.inl ⟨s, he, hf⟩)))
      · exact Or.inr (Or.inr (Or.inr (Or.inr (Or.inr (Or.inr ⟨_, he⟩)))))
    · rcases alrtCommand_shape r ts with he | ⟨s, c, v, he, hf⟩ | ⟨i, he⟩ | he
      · exact Or.inr (Or.inl ⟨_, _, he, Or.inl rfl⟩)
      · exact Or.inr (Or.inr (Or.inr (Or.inr (Or.inl ⟨s, c, v, he, hf⟩))))
      · exact Or.inr (Or.inr (Or.inr (Or.inr (Or.inr (Or.inl ⟨i, he⟩)))))
      · exact Or.inr (Or.inr (Or.inr (Or.inr (Or.inr (Or.inr ⟨_, he⟩)))))
    · split
      · exact Or.inr (Or.inl ⟨_, _, rfl, Or.inl rfl⟩)
      · exact Or.inr (Or.inr (Or.inr (Or.inr (Or.inr (Or.inr ⟨_, rfl⟩)))))

theorem tokensOf_of_trim_empty {r : String} (h : jsTrim r = "") : tokensOf r = [""] := by
  unfold tokensOf
  rw [h]
  decide

theorem parseCommand_eval_alrt_add {r s c v : String}
    (h : tokensOf r = ["ALRT", "ADD", s, c, v]) :
    parseCommand r = alrtAddCommand r s (some c) (some v) := by
  have hne : jsTrim r ≠ "" := by
    intro he
    rw [tokensOf_of_trim_empty he] at h
    exact absurd h (by simp)
  have hmm : parseMmapRefresh ["ALRT", "ADD", s, c, v] = none := by
    unfold parseMmapRefresh
    rw [if_pos]
    simp
  unfold parseCommand
  rw [if_neg hne]
  unfold parseCommandCore
  rw [h, hmm]
  simp [alrtCommand]

theorem C9_refresh_intervals_clamped :
    (∀ (tokens : List String) (n : Rat),
        parseMmapRefresh tokens = some (TerminalCommand.setMmapRefresh n) → 500 ≤ n)
    ∧ (∀ (r : String) (n : Rat), parseCommand r = .setMmapRefresh n → 500 ≤ n)
    ∧ (∀ (st : TerminalState) (v : Rat), 500 ≤ (setMmapRefreshMs st v).mmapRefreshMs)
    ∧ (∀ x : Rat, 500 ≤ marketOverviewRefetchIntervalMs x)
    ∧ (∀ d : Option Rat, 500 ≤ watchlistRefetchIntervalMs d) := by
  refine ⟨fun ts n h => parseMmapRefresh_bound h, ?_, fun st v => le_jsMax_left _ _,
    fun x => le_jsMax_left _ _, fun d => le_jsMax_left _ _⟩
  intro r n h
  unfold parseCommand at h
  split at h
  · exact absurd h (by simp)
  · rcases parseCommandCore_shape r (tokensOf r) with ⟨cmd, hm, he⟩ | ⟨m, ctx, he, _⟩ |
      ⟨t, he, _⟩ | ⟨t, he, _⟩ | ⟨t, c, v, he, _⟩ | ⟨i, he⟩ | ⟨w, he⟩ <;> rw [he] at h
    · rw [h] at hm
      exact parseMmapRefresh_bound hm
    · exact absurd h (by simp)
    · exact absurd h (by simp)
    · exact absurd h (by simp)
    · exact absurd h (by simp)
    · exact absurd h (by simp)
    · exact absurd h (by simp)

theorem C9_witness :
    parseMmapRefresh ["MMAP", "REFRESH", "2S"] =
        some (TerminalCommand.setMmapRefresh 2000) ∧ (500 : Rat) ≤ 2000 :=
  ⟨by decide, C9_refresh_intervals_clamped.1 ["MMAP", "REFRESH", "2S"] 2000 (by decide)⟩

theorem C4_alrt_add_validation :
    ∀ (rawInput s c v : String),
      tokensOf rawInput = ["ALRT", "ADD", s, c, v] →
      ((normalizeSymbolToken s = "" ∨ parseAlertCondition (some c) = none ∨
          jsNumber v = none ∨ (∃ q, jsNumber v = some q ∧ q ≤ 0)) →
        parseCommand rawInput = .unknown rawInput ∧
          commandRequests (parseCommand rawInput) = [])
      ∧ (∀ (cond : AlertCondition) (q : Rat),
          parseAlertCondition (some c) = some cond → jsNumber v = some q →
          normalizeSymbolToken s ≠ "" → 0 < q →
          parseCommand rawInput = .alertAdd (normalizeSymbolToken s) cond q ∧
            commandRequests (parseCommand rawInput) =
              [.createPriceAlert (normalizeSymbolToken s) cond q]) := by
  intro r s c v h
  rw [parseCommand_eval_alrt_add h]
  constructor
  · intro hbad
    have hu : alrtAddCommand r s (some c) (some v) = .unknown r := by
      unfold alrtAddCommand
      split
      · next cond q hc hq =>
        rw [Option.some_bind] at hq
        rcases hbad with hs | hcn | hvn | ⟨q', hq', hle⟩
        · rw [if_pos (Or.inl hs)]
        · rw [hcn] at hc
          exact absurd hc (by simp)
        · rw [hvn] at hq
          exact absurd hq (by simp)
        · rw [hq'] at hq
          have : q' = q := by simpa using hq
          rw [if_pos (Or.inr (this ▸ hle))]
      · rfl
    rw [hu]
    exact ⟨rfl, rfl⟩
  · intro cond q hcond hval hsym hpos
    have ha : alrtAddCommand r s (some c) (some v) =
        .alertAdd (normalizeSymbolToken s) cond q := by
      unfold alrtAddCommand
      simp only [Option.some_bind, hcond, hval]
      rw [if_neg]
      rintro (hs | hle)
      · exact hsym hs
      · exact absurd hpos (not_lt.mpr hle)
    rw [ha]
    exact ⟨rfl, rfl⟩

theorem C4_witness :
    parseCommand "ALRT ADD AAPL ABOVE 150" =
        TerminalCommand.alertAdd (normalizeSymbolToken "AAPL") .price_above 150 ∧
      commandRequests (parseCommand "ALRT ADD AAPL ABOVE 150") =
        [.createPriceAlert (normalizeSymbolToken "AAPL") .price_above 150] :=
  (C4_alrt_add_validation "ALRT ADD AAPL ABOVE 150" "AAPL" "ABOVE" "150"
      (by decide)).2 .price_above 150 (by decide) (by decide) (by decide) (by decide)

theorem C5_symbol_normalization_canonical :
    (∀ s : String, normalizeSymbolToken (normalizeSymbolToken s) = normalizeSymbolToken s)
    ∧ (∀ s : String, (normalizeSymbolToken s).data.all isAllowedSymbolChar = true)
    ∧ (∀ (r s : String), s ∈ commandSymbols (parseCommand r) → normalizeSymbolToken s = s)
    ∧ (∀ (st : TerminalState) (m : ModuleCode) (ctx : Option CommandContext)
        (now : String) (p : PanelConfig),
        p ∈ (openModule st m ctx now).panels → p ∉ st.panels →
        p.module = ModuleCode.INTRA →
        ∀ s, p.context.bind CommandContext.symbol = some s →
          normalizeSymbolToken s = s) := by
  refine ⟨normalizeSymbolToken_idem, normalizeSymbolToken_chars, ?_, ?_⟩
  · intro r s hs
    unfold parseCommand at hs
    split at hs
    · simp [commandSymbols] at hs
    · rcases parseCommandCore_shape r (tokensOf r) with ⟨cmd, hm, he⟩ | ⟨m, ctx, he, hctx⟩ |
        ⟨t, he, hf⟩ | ⟨t, he, hf⟩ | ⟨t, cc, vv, he, hf⟩ | ⟨i, he⟩ | ⟨w, he⟩ <;> rw [he] at hs
      · rcases parseMmapRefresh_result hm with ⟨n, rfl⟩ | ⟨w, rfl⟩ <;>
          simp [commandSymbols] at hs
      · rcases hctx with rfl | ⟨t, rfl, hf⟩
        · simp [commandSymbols] at hs
        · simp [commandSymbols] at hs
          rw [hs]
          exact hf
      · simp [commandSymbols] at hs
        rw [hs]
        exact hf
      · simp [commandSymbols] at hs
        rw [hs]
        exact hf
      · simp [commandSymbols] at hs
        rw [hs]
        exact hf
      · simp [commandSymbols] at hs
      · simp [commandSymbols] at hs
  · intro st m ctx now p hp hnot hmod s hsym
    unfold openModule at hp
    split at hp
    · exact absurd hp hnot
    · have hp' : p ∈ st.panels ++ [openModuleNewPanel m ctx now] := hp
      rw [List.mem_append] at hp'
      rcases hp' with h1 | h1
      · exact absurd h1 hnot
      · have hpp : p = openModuleNewPanel m ctx now := by simpa using h1
        subst hpp
        have hm' : normalizeModuleCode m = ModuleCode.INTRA := hmod
        unfold openModuleNewPanel at hsym
        unfold openModuleContext at hsym
        rw [if_pos hm'] at hsym
        simp only [Option.some_bind] at hsym
        rw [← (by simpa using hsym : _ = s)]
        exact normalizeSymbolToken_or_default_fixed _

theorem C5_witness :
    normalizeSymbolToken "MSFT" = "MSFT" ∧ normalizeSymbolToken "AAPL" = "AAPL" :=
  ⟨C5_symbol_normalization_canonical.2.2.1 "WL ADD msft" "MSFT" (by decide),
   C5_symbol_normalization_canonical.2.2.2 initialTerminalState .INTRA none "x"
     (openModuleNewPanel .INTRA none "x") (by decide) (by decide) (by decide)
     "AAPL" (by decide)⟩

theorem filter_ne_id_of_nodup {l1 l2 : List PanelConfig} {p : PanelConfig}
    (hnd : ((l1 ++ p :: l2).map PanelConfig.id).Nodup) :
    (l1 ++ p :: l2).filter (fun q => q.id != p.id) = l1 ++ l2 := by
  rw [List.map_append, List.map_cons, List.nodup_middle, List.nodup_cons] at hnd
  have hnotin := hnd.1
  rw [List.mem_append] at hnotin
  push_neg at hnotin
  have h1 : ∀ x ∈ l1, (x.id != p.id) = true := by
    intro x hx
    rw [bne_iff_ne]
    intro hxe
    exact hnotin.1 (hxe ▸ List.mem_map_of_mem PanelConfig.id hx)
  have h2 : ∀ x ∈ l2, (x.id != p.id) = true := by
    intro x hx
    rw [bne_iff_ne]
    intro hxe
    exact hnotin.2 (hxe ▸ List.mem_map_of_mem PanelConfig.id hx)
  rw [List.filter_append, List.filter_cons, if_neg (by simp)]
  rw [List.filter_eq_self.mpr h1, List.filter_eq_self.mpr h2]

theorem C8_close_panel_safe :
    ∀ (st : TerminalState) (panelId : String),
      (st.panels.length = 1 →
        (closePanel st panelId).panels = st.panels ∧
        (closePanel st panelId).layout = st.layout ∧
        (closePanel st panelId).activePanelId = st.activePanelId ∧
        (closePanel st panelId).mmapRefreshMs = st.mmapRefreshMs)
      ∧ ((st.panels.map PanelConfig.id).Nodup → 2 ≤ st.panels.length →
        ∀ p ∈ st.panels, p.id = panelId →
          (∃ l1 l2, st.panels = l1 ++ p :: l2 ∧
            (closePanel st panelId).panels = l1 ++ l2) ∧
          (closePanel st panelId).layout =
            st.layout.filter (fun entry => entry.i != panelId) ∧
          (closePanel st panelId).panels ≠ [] ∧
          (∃ q ∈ (closePanel st panelId).panels,
            (closePanel st panelId).activePanelId = some q.id)) := by
  intro st panelId
  constructor
  · intro h1
    unfold closePanel
    rw [if_pos (by omega)]
    exact ⟨rfl, rfl, rfl, rfl⟩
  · intro hnd hlen p hp hpid
    subst hpid
    have hi : st.panels.findIdx? (fun panel => panel.id == p.id) =
        some (st.panels.findIdx (fun panel => panel.id == p.id)) :=
      List.findIdx?_eq_some_of_exists ⟨p, hp, by simp⟩
    obtain ⟨l1, l2, hsplit⟩ := List.append_of_mem hp
    have hfilter : st.panels.filter (fun q => q.id != p.id) = l1 ++ l2 := by
      rw [hsplit]
      exact filter_ne_id_of_nodup (hsplit ▸ hnd)
    have hne : l1 ++ l2 ≠ [] := by
      intro hemp
      rw [hsplit] at hlen
      rcases List.append_eq_nil.mp hemp with ⟨rfl, rfl⟩
      simp at hlen
    unfold closePanel
    rw [if_neg (by omega)]
    simp only [hi]
    refine ⟨⟨l1, l2, hsplit, hfilter⟩, by first | rfl | trivial, by rw [hfilter]; exact hne, ?_⟩
    rw [hfilter]
    unfold closePanelNextActive
    split
    · next hkeep =>
      unfold closePanelKeepActive at hkeep
      split at hkeep
      · next a ha =>
        rw [Bool.and_eq_true] at hkeep
        obtain ⟨q, hqmem, hqid⟩ := List.any_eq_true.mp hkeep.2
        refine ⟨q, hqmem, ?_⟩
        rw [ha]
        exact congrArg some (beq_iff_eq.mp hqid).symm
      · exact absurd hkeep (by simp)
    · next hkeep =>
      cases hg : (l1 ++ l2)[st.panels.findIdx (fun panel => panel.id == p.id) - 1]? with
      | some q =>
        refine ⟨q, List.getElem?_mem hg, ?_⟩
        simp [hg, Option.orElse]
      | none =>
        cases hg0 : (l1 ++ l2)[0]? with
        | none =>
          rw [List.getElem?_eq_none_iff] at hg0
          exact absurd (List.length_eq_zero.mp (by omega)) hne
        | some q =>
          refine ⟨q, List.getElem?_mem hg0, ?_⟩
          simp [hg, hg0, Option.orElse]

/-- A two-panel store state used to witness `closePanel`'s behavior. -/
def c8DemoPanel : PanelConfig := ⟨"wl-1", .WL, "Watchlist", none⟩

def c8DemoState : TerminalState :=
  ⟨[⟨"mmap-main", .MMAP, "Market Overview", none⟩, c8DemoPanel],
   [⟨"mmap-main", 0, some 0, 12, 16, 4, 8⟩, ⟨"wl-1", 0, none, 6, 12, 3, 8⟩],
   some "wl-1", "", 2000⟩

theorem C8_witness :
    (closePanel c8DemoState "wl-1").panels ≠ [] ∧
      ∃ q ∈ (closePanel c8DemoState "wl-1").panels,
        (closePanel c8DemoState "wl-1").activePanelId = some q.id :=
  ((C8_close_panel_safe c8DemoState "wl-1").2 (by decide) (by decide)
    c8DemoPanel (by decide) rfl).2.2

theorem pairwise_le_last {l : List Nat} {m : Nat}
    (hs : l.Pairwise (fun a b => a ≤ b)) (hm : l.getLast? = some m) :
    ∀ x ∈ l, x ≤ m := by
  obtain ⟨ys, rfl⟩ := List.getLast?_eq_some_iff.mp hm
  intro x hx
  rcases List.mem_append.mp hx with h | h
  · exact (List.pairwise_append.mp hs).2.2 x h m (by simp)
  · simp at h
    exact le_of_eq h

theorem foldl_max_all_le {l : List Nat} :
    ∀ {cur : Nat}, (∀ x ∈ l, x ≤ cur) → l.foldl max cur = cur := by
  induction l with
  | nil => intro cur _; rfl
  | cons a t ih =>
    intro cur h
    rw [List.foldl_cons, Nat.max_eq_left (h a (by simp))]
    exact ih (fun x hx => h x (by simp [hx]))

theorem foldl_max_eq_of_mem {l : List Nat} {m : Nat} :
    ∀ {cur : Nat}, m ∈ l → (∀ x ∈ l, x ≤ m) → cur ≤ m → l.foldl max cur = m := by
  induction l with
  | nil =>
    intro cur h
    cases h
  | cons a t ih =>
    intro cur hm hall hcur
    rw [List.foldl_cons]
    by_cases hmt : m ∈ t
    · exact ih hmt (fun x hx => hall x (by simp [hx]))
        (Nat.max_le.mpr ⟨hcur, hall a (by simp)⟩)
    · have hma : m = a := by
        rcases List.mem_cons.mp hm with h | h
        · exact h
        · exact absurd h hmt
      subst hma
      rw [Nat.max_eq_right hcur]
      exact foldl_max_all_le (fun x hx => hall x (by simp [hx]))

theorem le_foldl_max (l : List Nat) : ∀ cur : Nat, cur ≤ l.foldl max cur := by
  induction l with
  | nil => intro cur; exact le_refl _
  | cons a t ih =>
    intro cur
    rw [List.foldl_cons]
    exact le_trans (Nat.le_max_left cur a) (ih (max cur a))

theorem jsSortIds_sorted (items : List Nat) :
    (jsSortIds items).Pairwise (fun a b : Nat => a ≤ b) :=
  List.sorted_insertionSort (fun a b => a ≤ b) items

theorem jsSortIds_perm (items : List Nat) : List.Perm (jsSortIds items) items :=
  List.perm_insertionSort (fun a b => a ≤ b) items

theorem pollStep_latestId {s : PollState} {r : Option (List Nat)}
    (h : ((r.getD []).all fun i => decide (s.latestId < i)) = true) :
    (pollStep s r).1.latestId = (r.getD []).foldl max s.latestId := by
  cases r with
  | none => simp [pollStep]
  | some items =>
    simp only [Option.getD_some] at h ⊢
    cases items with
    | nil => simp [pollStep]
    | cons a t =>
      have hperm := jsSortIds_perm (a :: t)
      have hsorted := jsSortIds_sorted (a :: t)
      have hlen : jsSortIds (a :: t) ≠ [] := by
        intro he
        have := hperm.length_eq
        rw [he] at this
        simp at this
      obtain ⟨m, hm⟩ : ∃ m, (jsSortIds (a :: t)).getLast? = some m := by
        cases hg : (jsSortIds (a :: t)).getLast? with
        | none => exact absurd (List.getLast?_eq_none_iff.mp hg) hlen
        | some m => exact ⟨m, rfl⟩
      have hall : ∀ x ∈ a :: t, x ≤ m :=
        fun x hx => pairwise_le_last hsorted hm x (hperm.mem_iff.mpr hx)
      have hmem : m ∈ a :: t := hperm.mem_iff.mp
        (List.mem_of_mem_getLast? (show m ∈ (jsSortIds (a :: t)).getLast? from by
          rw [hm]; rfl))
      have hcur : s.latestId ≤ m :=
        le_of_lt (of_decide_eq_true (List.all_eq_true.mp h m hmem))
      simp only [pollStep]
      rw [if_neg (by simp), hm]
      cases hinit : s.initialized <;>
        simp only [Bool.false_eq_true, if_false, if_true, Option.getD_some] <;>
        exact (foldl_max_eq_of_mem hmem hall hcur).symm

theorem runPolls_requests {rs : List (Option (List Nat))} : ∀ {s : PollState},
    FeedContract s rs = true →
    (runPolls s rs).map Prod.fst = specRequests s.latestId rs := by
  induction rs with
  | nil => intro s _; rfl
  | cons r rest ih =>
    intro s h
    unfold FeedContract at h
    rw [Bool.and_eq_true] at h
    unfold runPolls specRequests
    simp only [List.map_cons, List.cons.injEq]
    refine ⟨rfl, ?_⟩
    rw [← pollStep_latestId h.1]
    exact ih h.2

theorem pollCursors_chain {rs : List (Option (List Nat))} : ∀ {s : PollState},
    FeedContract s rs = true →
    List.Chain' (fun a b : Nat => a ≤ b) (s.latestId :: pollCursors s rs) := by
  induction rs with
  | nil => intro s _; exact List.chain'_singleton _
  | cons r rest ih =>
    intro s h
    unfold FeedContract at h
    rw [Bool.and_eq_true] at h
    unfold pollCursors
    rw [List.chain'_cons]
    refine ⟨?_, ih h.2⟩
    rw [pollStep_latestId h.1]
    exact le_foldl_max _ _

theorem runPolls_limit {rs : List (Option (List Nat))} : ∀ {s : PollState},
    ∀ e ∈ runPolls s rs, e.1.limit = 25 := by
  induction rs with
  | nil =>
    intro s e he
    simp [runPolls] at he
  | cons r rest ih =>
    intro s e he
    unfold runPolls at he
    rcases List.mem_cons.mp he with rfl | he2
    · rfl
    · exact ih e he2

theorem runPolls_processed_sorted {rs : List (Option (List Nat))} : ∀ {s : PollState},
    ∀ e ∈ runPolls s rs, e.2.Pairwise (fun a b : Nat => a ≤ b) := by
  induction rs with
  | nil =>
    intro s e he
    simp [runPolls] at he
  | cons r rest ih =>
    intro s e he
    unfold runPolls at he
    rcases List.mem_cons.mp he with rfl | he2
    · show ((pollStep s r).2).Pairwise (fun a b : Nat => a ≤ b)
      cases r with
      | none => simp [pollStep]
      | some items =>
        cases hemp : items.isEmpty with
        | true => simp [pollStep, hemp]
        | false =>
          simp only [pollStep, hemp, Bool.false_eq_true, if_false]
          cases s.initialized <;> simp [jsSortIds_sorted]
    · exact ih e he2

/-- Claim C3: under the feed contract (each response's ids exceed the
cursor the request carried), every poll request carries
afterId = the largest event id seen across all previous polls (absent
while none has been seen) together with limit 25; the stored cursor never
decreases across polls; and each response is processed in ascending id
order. -/
theorem C3_poller_incremental_cursor :
    ∀ responses : List (Option (List Nat)),
      FeedContract initialPollState responses = true →
      (runPolls initialPollState responses).map Prod.fst = specRequests 0 responses
      ∧ List.Chain' (fun a b : Nat => a ≤ b)
          (0 :: pollCursors initialPollState responses)
      ∧ (∀ e ∈ runPolls initialPollState responses, e.1.limit = 25)
      ∧ (∀ e ∈ runPolls initialPollState responses,
          e.2.Pairwise (fun a b : Nat => a ≤ b)) := by
  intro responses h
  exact ⟨runPolls_requests h, pollCursors_chain h,
    fun e he => runPolls_limit e he, fun e he => runPolls_processed_sorted e he⟩

theorem C3_witness :
    FeedContract initialPollState [some [2, 1], none, some [5]] = true ∧
      ((runPolls initialPollState [some [2, 1], none, some [5]]).map Prod.fst =
          specRequests 0 [some [2, 1], none, some [5]]
        ∧ List.Chain' (fun a b : Nat => a ≤ b)
            (0 :: pollCursors initialPollState [some [2, 1], none, some [5]])
        ∧ (∀ e ∈ runPolls initialPollState [some [2, 1], none, some [5]],
            e.1.limit = 25)
        ∧ (∀ e ∈ runPolls initialPollState [some [2, 1], none, some [5]],
            e.2.Pairwise (fun a b : Nat => a ≤ b))) :=
  ⟨by decide, C3_poller_incremental_cursor [some [2, 1], none, some [5]] (by decide)⟩
